import Mathlib

/-!
Verification of the piecash core model (src/piecash/_common.py and
src/piecash/core/account.py) against its natural-language specification.

The development shallowly embeds:
* the decimal codec `hybrid_property_gncnumeric` (fset/fget), including the
  relevant semantics of Python `Decimal` arithmetic at the default context
  (28 significant digits, round-half-even); the exponent limits of the
  default context (`Emin`/`Emax` of about a million) are outside the model;
* the account entity of `core/account.py`: commodity/scu validation, sibling
  name validation, parent/child type-compatibility, and the `fullname` walk;
* the `CallableList` keyed finder of `_common.py`.

Python `Decimal` values are modelled as a signed coefficient together with a
stored exponent (the pair underlying `Decimal.as_tuple()`), Python ints as
`Int`, and exceptions as explicit error values returned next to the state as
it stood when the exception was raised.
-/

/-! ### Digit counts (Python `len(str(coeff))` for a nonnegative coefficient) -/

/-- Fuel-driven base-10 digit count; the fuel only needs to exceed the number
returned, which `numDigits` guarantees. -/
def numDigitsAux : Nat → Nat → Nat
  | 0, _ => 0
  | fuel + 1, n => if n < 10 then 1 else numDigitsAux fuel (n / 10) + 1

/-- Number of decimal digits of `n`, with `numDigits 0 = 1` as for `len(str(0))`. -/
def numDigits (n : Nat) : Nat := numDigitsAux (n + 1) n

/-! ### Python `Decimal` model and the gncnumeric codec of `_common.py` -/

/-- Decimal context precision of Python's default context. -/
def prec : Nat := 28

/-- A Python `Decimal` value: signed coefficient `m` at stored exponent `e`,
denoting `m * 10 ^ e` (the data of `Decimal.as_tuple()`). -/
structure PyDec where
  m : Int
  e : Int
deriving DecidableEq

/-- Rational value denoted by a decimal. -/
def PyDec.val (d : PyDec) : ℚ := (d.m : ℚ) * (10 : ℚ) ^ d.e

/-- Round `n / M` to the nearest integer, ties to even (`ROUND_HALF_EVEN`). -/
def halfEvenDiv (n M : Nat) : Nat :=
  if M < 2 * (n % M) then n / M + 1
  else if 2 * (n % M) = M then (if (n / M) % 2 = 1 then n / M + 1 else n / M) else n / M

/-- Rounding step of `Decimal._fix` when the coefficient has `k` digits too
many: round the magnitude at `10 ^ k` (half-even); if the rounded coefficient
overflowed to `prec + 1` digits it ends in a zero, which is shifted into the
exponent as well. -/
def decFixRound (m e : Int) (k : Nat) : PyDec :=
  if prec < numDigits (halfEvenDiv m.natAbs (10 ^ k)) then
    ⟨if m < 0 then -((halfEvenDiv m.natAbs (10 ^ k) / 10 : Nat) : Int)
      else ((halfEvenDiv m.natAbs (10 ^ k) / 10 : Nat) : Int), e + (k + 1)⟩
  else
    ⟨if m < 0 then -((halfEvenDiv m.natAbs (10 ^ k) : Nat) : Int)
      else ((halfEvenDiv m.natAbs (10 ^ k) : Nat) : Int), e + k⟩

/-- `Decimal._fix` at the default context: a coefficient of at most `prec`
digits is left alone, otherwise it is rounded to `prec` significant digits
(half-even), adjusting the exponent; exponent limits of the context are not
modelled. -/
def decFix (d : PyDec) : PyDec :=
  if numDigits d.m.natAbs ≤ prec then d
  else decFixRound d.m d.e (numDigits d.m.natAbs - prec)

/-- `Decimal.__mul__`: coefficients multiply, exponents add, then `_fix`. -/
def decMul (a b : PyDec) : PyDec := decFix ⟨a.m * b.m, a.e + b.e⟩

/-- Integer division truncating toward zero (Python `int(Decimal)` semantics). -/
def tdivInt (a : Int) (b : Nat) : Int :=
  if 0 ≤ a then ((a.toNat / b : Nat) : Int) else -(((-a).toNat / b : Nat) : Int)

/-- Python `int(d)` for a decimal `d`: truncation toward zero. -/
def decTruncToInt (d : PyDec) : Int :=
  if 0 ≤ d.e then d.m * (10 : Int) ^ d.e.toNat
  else tdivInt d.m (10 ^ (-d.e).toNat)

/-- The trailing-zero-stripping loop of `Decimal.__truediv__` for an exact
quotient: while `exp < ideal_exp (= 0)` and the coefficient is divisible by
ten, shift one digit. The fuel passed by `pyDivInt` bounds the iterations the
Python loop can take. -/
def stripLoop : Nat → Nat → Int → Nat × Int
  | 0, c, e => (c, e)
  | f + 1, c, e =>
    if e < 0 ∧ c % 10 = 0 then stripLoop f (c / 10) (e + 1) else (c, e)

/-- The `shift` of `__truediv__` for magnitudes `n / m` (both at exponent 0):
`len(other._int) - len(self._int) + prec + 1`. -/
def pyDivShift (n m : Nat) : Int :=
  (numDigits m : Int) - (numDigits n : Int) + (prec : Int) + 1

/-- The `divmod` step of `__truediv__`: `(coeff, remainder)`, with the shift
applied to whichever operand it favors. -/
def pyDivRaw (n m : Nat) : Nat × Nat :=
  if 0 ≤ pyDivShift n m then
    ((n * 10 ^ (pyDivShift n m).toNat) / m, (n * 10 ^ (pyDivShift n m).toNat) % m)
  else
    (n / (m * 10 ^ (-(pyDivShift n m)).toNat), n % (m * 10 ^ (-(pyDivShift n m)).toNat))

/-- The correction step of `__truediv__`: an inexact quotient gets its last
digit made odd (so that the later half-even rounding is exact), an exact one
has trailing zeros shifted out up to the ideal exponent 0. -/
def pyDivAdjust (n m : Nat) : Nat × Int :=
  if (pyDivRaw n m).2 ≠ 0 then
    (if (pyDivRaw n m).1 % 5 = 0 then (pyDivRaw n m).1 + 1 else (pyDivRaw n m).1,
      -(pyDivShift n m))
  else stripLoop (pyDivShift n m).toNat (pyDivRaw n m).1 (-(pyDivShift n m))

/-- `Decimal(a) / b` for Python integers `a`, `b` (`b ≠ 0`): the algorithm of
`_pydecimal.Decimal.__truediv__` at the default context. Both operands have
stored exponent 0, so the ideal exponent is 0; the sign is the xor of the
operand signs. -/
def pyDivInt (a b : Int) : PyDec :=
  if a.natAbs = 0 then ⟨0, 0⟩
  else
    if xor (decide (a < 0)) (decide (b < 0)) then
      ⟨-(decFix ⟨((pyDivAdjust a.natAbs b.natAbs).1 : Int),
          (pyDivAdjust a.natAbs b.natAbs).2⟩).m,
        (decFix ⟨((pyDivAdjust a.natAbs b.natAbs).1 : Int),
          (pyDivAdjust a.natAbs b.natAbs).2⟩).e⟩
    else
      decFix ⟨((pyDivAdjust a.natAbs b.natAbs).1 : Int), (pyDivAdjust a.natAbs b.natAbs).2⟩

/-- The inputs accepted (or rejected) by the gncnumeric setter, mirroring the
`isinstance` dispatch of `fset`: `None`, a `(numerator, denominator)` tuple of
ints, an int, a numeric string (carried here already parsed, as the decimal it
denotes), a float (payload: its numeric value), a `Decimal`, or a value of any
other type (payload: the type name used in the error message). -/
inductive GncInput where
  | noneI : GncInput
  | tupI : Int → Int → GncInput
  | intI : Int → GncInput
  | strI : PyDec → GncInput
  | floatI : ℚ → GncInput
  | decI : PyDec → GncInput
  | otherI : String → GncInput
deriving DecidableEq

/-- Errors raised by the setter: `TypeError` for floats, `TypeError` for
unknown types, `decimal.DivisionByZero` from the tuple branch, and the
out-of-range `ValueError`. -/
inductive GncErr where
  | typeErrFloat : ℚ → GncErr
  | typeErrOther : String → GncErr
  | divisionByZero : GncErr
  | outOfRange : PyDec → GncErr
deriving DecidableEq

/-- The state backing one gncnumeric hybrid property: the numerator and
denominator columns and the optional `_<denom>_basis` attribute. -/
structure GncRecord where
  num : Option Int
  denom : Option Int
  denomBasis : Option Int
deriving DecidableEq

def MAX_NUMBER : Int := 2 ^ 63 - 1

/-- The denominator chosen by `fset`: the configured basis if any, else
`10 ** max(-exp, 0)`. -/
def computedDenom (r : GncRecord) (d : PyDec) : Int :=
  match r.denomBasis with
  | some b => b
  | none => (10 : Int) ^ (max (-d.e) 0).toNat

/-- The numerator computed by `fset`: `int(d * denom)` in Python decimal
arithmetic. -/
def computedNum (r : GncRecord) (d : PyDec) : Int :=
  decTruncToInt (decMul d ⟨computedDenom r d, 0⟩)

/-- The tail of `fset` once the input is a decimal: compute denominator and
numerator, range-check, then assign both fields. An error leaves the record as
it stood when the exception was raised (nothing had been assigned yet). -/
def fsetDec (r : GncRecord) (d : PyDec) : GncRecord × Option GncErr :=
  let denom := computedDenom r d
  let num := computedNum r d
  if (-MAX_NUMBER < num ∧ num < MAX_NUMBER) ∧ (-MAX_NUMBER < denom ∧ denom < MAX_NUMBER) then
    ({ r with num := some num, denom := some denom }, none)
  else (r, some (.outOfRange d))

/-- `hybrid_property_gncnumeric.fset`. -/
def fset (r : GncRecord) (i : GncInput) : GncRecord × Option GncErr :=
  match i with
  | .noneI => ({ r with num := none, denom := none }, none)
  | .tupI a b => if b = 0 then (r, some .divisionByZero) else fsetDec r (pyDivInt a b)
  | .intI k => fsetDec r ⟨k, 0⟩
  | .strI d => fsetDec r d
  | .floatI x => (r, some (.typeErrFloat x))
  | .decI d => fsetDec r d
  | .otherI ty => (r, some (.typeErrOther ty))

/-- `hybrid_property_gncnumeric.fget`: `None` when the numerator is unset,
else `Decimal(num) / denom`. A set numerator with an unset denominator would
raise in Python and never occurs (`fset` always assigns both); that case is
collapsed to `none` here. -/
def fget (r : GncRecord) : Option PyDec :=
  match r.num, r.denom with
  | none, _ => none
  | some nu, some de => some (pyDivInt nu de)
  | some _, none => none

/-- Truncation toward zero on rationals. -/
def ratTrunc (q : ℚ) : Int := if 0 ≤ q then ⌊q⌋ else ⌈q⌉

/-- Modelled from the spec: rounding to the nearest integer, ties to even,
which is what `round(value * denominator)` denotes for Python decimals. Used
only to compare the spec's wording with what the code computes. -/
def ratRoundHalfEven (q : ℚ) : Int :=
  if q - ⌊q⌋ < 1 / 2 then ⌊q⌋
  else if 1 / 2 < q - ⌊q⌋ then ⌊q⌋ + 1
  else if ⌊q⌋ % 2 = 0 then ⌊q⌋ else ⌊q⌋ + 1

/-! ### Account type taxonomy and compatibility (`core/account.py`) -/

def root_types : List String := ["ROOT"]

def asset_types : List String := ["RECEIVABLE", "MUTUAL", "CASH", "ASSET", "BANK", "STOCK"]

def liability_types : List String := ["CREDIT", "LIABILITY", "PAYABLE"]

def income_types : List String := ["INCOME"]

def expense_types : List String := ["EXPENSE"]

def trading_types : List String := ["TRADING"]

def equity_types : List String := ["EQUITY"]

/-- `ACCOUNT_TYPES`, the union of all families (sets become lists; only
membership matters). -/
def ACCOUNT_TYPES : List String :=
  equity_types ++ income_types ++ expense_types ++ asset_types ++ liability_types ++
    root_types ++ trading_types

def incexp_types : List String := income_types ++ expense_types

def assetliab_types : List String := asset_types ++ liability_types

def positive_types : List String := asset_types ++ expense_types ++ trading_types

def negative_types : List String := liability_types ++ income_types ++ equity_types

/-- `_is_parent_child_types_consistent`: the parent type may be `None` (no
parent); membership tests mirror the Python `in` checks. -/
def _is_parent_child_types_consistent (type_parent : Option String) (type_child : String) : Bool :=
  if (match type_parent with | some t => root_types.contains t | none => false) then
    ACCOUNT_TYPES.contains type_child && !(root_types.contains type_child)
  else if root_types.contains type_child then
    decide (type_parent = none)
  else
    [assetliab_types, equity_types, incexp_types, trading_types].any
      (fun fam => fam.contains type_child &&
        (match type_parent with | some t => fam.contains t | none => false))

/-! ### Account entity model -/

/-- The commodity collaborator: only its `fraction` is relevant here. -/
structure Commodity where
  fraction : Int
deriving DecidableEq

/-- One account row: `guid` stands in for object identity, `atype` is the
`type` attribute (`none` before it is set), `parentGuid` the parent link,
`commodity` the commodity relation, and `commodityScu` / `nonStdScu` the
`_commodity_scu` / `_non_std_scu` columns (both `none` before first
assignment). -/
structure AccountR where
  guid : Nat
  name : String
  atype : Option String
  parentGuid : Option Nat
  commodity : Option Commodity
  commodityScu : Option Int
  nonStdScu : Option Int
deriving DecidableEq

/-- A book: the collection of account rows (ORM identity map). Guids are
unique in any reachable book; the embedding identifies accounts by guid. -/
abbrev Book := List AccountR

def lookupAcc (book : Book) (g : Nat) : Option AccountR :=
  book.find? (fun a => a.guid = g)

/-- `parent.children`: the accounts whose parent link points to `pg`, in book
order (the ORM keeps children in insertion order). -/
def childrenOf (book : Book) (pg : Nat) : List AccountR :=
  book.filter (fun a => a.parentGuid = some pg)

/-- The `commodity_scu` setter: `None` clears the override flag and derives
the value from the commodity (0 without one); a concrete value sets the
override flag and is stored verbatim. -/
def set_commodity_scu (a : AccountR) (v : Option Int) : AccountR :=
  match v with
  | none =>
    { a with nonStdScu := some 0,
             commodityScu := some (match a.commodity with
               | some c => c.fraction
               | none => 0) }
  | some w => { a with nonStdScu := some 1, commodityScu := some w }

/-- Assigning `commodity`, running `validate_commodity` first: a null value is
assigned with no side effect; otherwise, when `commodity_scu` is unset or
`non_std_scu == 0`, `commodity_scu = value.fraction` is assigned through the
scu setter, and then the commodity itself is stored. -/
def setCommodity (a : AccountR) (v : Option Commodity) : AccountR :=
  match v with
  | none => { a with commodity := none }
  | some c =>
    if a.commodityScu = none ∨ a.nonStdScu = some 0 then
      { set_commodity_scu a (some c.fraction) with commodity := some c }
    else
      { a with commodity := some c }

/-- `validate_account_name` for a prospective name `nm` of account `a`:
returns `true` when the assignment is allowed. With no (resolvable) parent
there is nothing to check; otherwise no other child of the parent may already
carry the name. -/
def validate_account_name (book : Book) (a : AccountR) (nm : String) : Bool :=
  match a.parentGuid.bind (lookupAcc book) with
  | none => true
  | some p =>
    !((childrenOf book p.guid).any (fun acc => acc.name == nm && acc.guid != a.guid))

/-- Validation errors of the account model. -/
inductive AccErr where
  | dupName : AccErr
  | invalidType : AccErr
  | inconsistentType : AccErr
deriving DecidableEq

/-- Assigning `name`: the validator runs against the current object graph
before anything is stored; on failure the book is unchanged. -/
def setName (book : Book) (g : Nat) (nm : String) : Book × Option AccErr :=
  match lookupAcc book g with
  | none => (book, none)
  | some a =>
    if validate_account_name book a nm then
      (book.map (fun x => if x.guid = g then { x with name := nm } else x), none)
    else (book, some .dupName)

/-- `Account.__init__` field assignments in order: `name` (no parent yet, so
no sibling check), `commodity` (through `validate_commodity`), `type`,
`parent`, then `commodity_scu` with the constructor argument (through the scu
setter). -/
def mkAccount (g : Nat) (nm ty : String) (cmdty : Option Commodity)
    (scuArg : Option Int) (pg : Option Nat) : AccountR :=
  set_commodity_scu
    { setCommodity
        { guid := g, name := nm, atype := none, parentGuid := none,
          commodity := none, commodityScu := none, nonStdScu := none }
        cmdty
      with atype := some ty, parentGuid := pg }
    scuArg

/-- Creating an account under a parent: the `type` membership check fires on
the `type` assignment, the parent/child consistency check on the `parent`
assignment, and the sibling-name check once the new account is linked into the
parent's children (when the parent link is flushed). A validation failure
surfaces before the book is changed. -/
def addAccount (book : Book) (g : Nat) (nm ty : String) (cmdty : Option Commodity)
    (scuArg : Option Int) (pg : Option Nat) : Book × Option AccErr :=
  if !(ACCOUNT_TYPES.contains ty) then (book, some .invalidType)
  else
    match pg.bind (lookupAcc book) with
    | some pacc =>
      if !(_is_parent_child_types_consistent pacc.atype ty) then
        (book, some .inconsistentType)
      else
        if validate_account_name (book ++ [mkAccount g nm ty cmdty scuArg pg])
            (mkAccount g nm ty cmdty scuArg pg) nm then
          (book ++ [mkAccount g nm ty cmdty scuArg pg], none)
        else (book, some .dupName)
    | none => (book ++ [mkAccount g nm ty cmdty scuArg pg], none)

/-- The `while acc: l.append(acc.name); acc = acc.parent` walk of `fullname`,
collecting names from the account upward; the fuel bounds the walk (any
reachable book has finitely deep, acyclic parent chains). -/
def ancestorNames (book : Book) : Nat → Option Nat → List String
  | 0, _ => []
  | _, none => []
  | fuel + 1, some g =>
    match lookupAcc book g with
    | none => []
    | some a => a.name :: ancestorNames book fuel a.parentGuid

/-- `Account.fullname`: `None` when the account's own name is falsy, else the
collected names without their last element (the outermost segment), reversed
and joined with a colon (the slice `l[-2::-1]`). -/
def fullname (book : Book) (fuel : Nat) (g : Nat) : Option String :=
  match lookupAcc book g with
  | none => none
  | some a =>
    if a.name = "" then none
    else some (String.intercalate (":") (((ancestorNames book fuel (some g)).dropLast).reverse))

/-- A parent chain recorded explicitly: the list of account rows from `g` up
to the last resolvable ancestor. -/
inductive ParentChain (book : Book) : Option Nat → List AccountR → Prop where
  | stop : ParentChain book none []
  | dangling (g : Nat) : lookupAcc book g = none → ParentChain book (some g) []
  | cons (g : Nat) (a : AccountR) (rest : List AccountR) :
      lookupAcc book g = some a → ParentChain book a.parentGuid rest →
      ParentChain book (some g) (a :: rest)

/-! ### `CallableList` (`_common.py`) -/

/-- Modelled from the spec (§4.3): clause 1, parent `ROOT` accepts any
non-ROOT member of the taxonomy; clause 2, a ROOT child needs a null parent;
clause 3, otherwise both types must share a family among assetliab, equity,
incexp, trading. -/
def compatibleSpec (tp : Option String) (tc : String) : Bool :=
  (decide (tp = some ("ROOT")) && ACCOUNT_TYPES.contains tc && !(decide (tc = ("ROOT")))) ||
  (decide (tc = ("ROOT")) && decide (tp = none)) ||
  ([assetliab_types, equity_types, incexp_types, trading_types].any
    (fun fam => fam.contains tc &&
      (match tp with | some t => fam.contains t | none => false)))

/-- A concrete book for the C3 witness: parent P (guid 0) with children X
(guid 1) and Y (guid 2), and an unrelated parent Q (guid 3) with child Z
(guid 4). -/
def c3book : Book :=
  [AccountR.mk 0 ("P") (some ("ROOT")) none none none none,
   AccountR.mk 1 ("X") (some ("ASSET")) (some 0) none none none,
   AccountR.mk 2 ("Y") (some ("ASSET")) (some 0) none none none,
   AccountR.mk 3 ("Q") (some ("ROOT")) none none none none,
   AccountR.mk 4 ("Z") (some ("ASSET")) (some 3) none none none]

section CallableList

variable {α V : Type} [DecidableEq V]

/-- The inner loop of `CallableList.__call__` over one element: walk the
criteria pairs, breaking at the first mismatching field; the element matches
when the loop falls through. `getA` is `getattr`. -/
def objMatches (getA : α → String → V) (x : α) : List (String × V) → Bool
  | [] => true
  | kv :: rest => if getA x kv.1 ≠ kv.2 then false else objMatches getA x rest

/-- The outer loop of `CallableList.__call__`: first matching element wins;
on fall-through, the configured fallback is invoked with the same criteria, or
a `KeyError` carrying the criteria and the whole collection is raised. -/
def clCallAux (getA : α → String → V) (fb : Option (List (String × V) → α))
    (orig : List α) (crit : List (String × V)) :
    List α → Except (List (String × V) × List α) α
  | [] =>
    match fb with
    | some f => .ok (f crit)
    | none => .error (crit, orig)
  | x :: xs =>
    if objMatches getA x crit then .ok x else clCallAux getA fb orig crit xs

/-- `CallableList.__call__` (also exposed as `get`). -/
def clCall (getA : α → String → V) (fb : Option (List (String × V) → α))
    (l : List α) (crit : List (String × V)) : Except (List (String × V) × List α) α :=
  clCallAux getA fb l crit l

end CallableList

/-! ### Lemmas -/

theorem numDigitsAux_congr : ∀ (n f g : Nat), n < f → n < g →
    numDigitsAux f n = numDigitsAux g n := by
  intro n
  induction n using Nat.strong_induction_on with
  | _ n ih =>
    intro f g hf hg
    match f, g with
    | f + 1, g + 1 =>
      simp only [numDigitsAux]
      by_cases h : n < 10
      · simp [h]
      · have hlt : n / 10 < n := Nat.div_lt_self (by omega) (by omega)
        simp only [if_neg h]
        have h1 : n / 10 < f := by omega
        have h2 : n / 10 < g := by omega
        rw [ih (n / 10) hlt f g h1 h2]

/-- Unfolding rule for `numDigits`. -/
theorem numDigits_eq (n : Nat) :
    numDigits n = if n < 10 then 1 else numDigits (n / 10) + 1 := by
  by_cases h : n < 10
  · simp [numDigits, numDigitsAux, h]
  · have hlt : n / 10 < n := Nat.div_lt_self (by omega) (by omega)
    have : numDigits n = numDigitsAux n (n / 10) + 1 := by
      simp [numDigits, numDigitsAux, h]
    rw [this, if_neg h, numDigits]
    rw [numDigitsAux_congr (n / 10) n (n / 10 + 1) (by omega) (by omega)]

theorem numDigits_pos (n : Nat) : 1 ≤ numDigits n := by
  induction n using Nat.strong_induction_on with
  | _ n ih =>
    rw [numDigits_eq]
    by_cases h : n < 10
    · simp [h]
    · simp [h]

theorem lt_pow_numDigits (n : Nat) : n < 10 ^ numDigits n := by
  induction n using Nat.strong_induction_on with
  | _ n ih =>
    rw [numDigits_eq]
    by_cases h : n < 10
    · simp only [if_pos h]; omega
    · have hlt : n / 10 < n := Nat.div_lt_self (by omega) (by omega)
      have ihn := ih (n / 10) hlt
      have hmod : n % 10 < 10 := Nat.mod_lt _ (by omega)
      have hdm : 10 * (n / 10) + n % 10 = n := Nat.div_add_mod n 10
      simp only [if_neg h, pow_succ]
      omega

theorem pow_numDigits_le (n : Nat) (hn : 1 ≤ n) : 10 ^ (numDigits n - 1) ≤ n := by
  induction n using Nat.strong_induction_on with
  | _ n ih =>
    rw [numDigits_eq]
    by_cases h : n < 10
    · simpa [h] using hn
    · have hlt : n / 10 < n := Nat.div_lt_self (by omega) (by omega)
      have hn10 : 1 ≤ n / 10 := by omega
      have ihn := ih (n / 10) hlt hn10
      have hpos := numDigits_pos (n / 10)
      have hdm : 10 * (n / 10) + n % 10 = n := Nat.div_add_mod n 10
      have : 10 ^ (numDigits (n / 10) + 1 - 1) = 10 * 10 ^ (numDigits (n / 10) - 1) := by
        have : numDigits (n / 10) + 1 - 1 = (numDigits (n / 10) - 1) + 1 := by omega
        rw [this, pow_succ]; ring
      simp only [if_neg h, this]
      omega

theorem numDigits_le_of_lt (n k : Nat) (hk : 1 ≤ k) (h : n < 10 ^ k) :
    numDigits n ≤ k := by
  rcases Nat.eq_zero_or_pos n with h0 | h0
  · subst h0
    have : numDigits 0 = 1 := by rw [numDigits_eq]; simp
    omega
  · by_contra hc
    push_neg at hc
    have h1 : k ≤ numDigits n - 1 := by omega
    have h2 : (10 : Nat) ^ k ≤ 10 ^ (numDigits n - 1) :=
      Nat.pow_le_pow_right (by omega) h1
    have h3 := pow_numDigits_le n h0
    omega

theorem numDigits_eq_of_bounds (n k : Nat) (h1 : 10 ^ k ≤ n) (h2 : n < 10 ^ (k + 1)) :
    numDigits n = k + 1 := by
  have hle : numDigits n ≤ k + 1 := numDigits_le_of_lt n (k + 1) (by omega) h2
  have hn1 : 1 ≤ n := le_trans (Nat.one_le_pow _ _ (by omega)) h1
  have hgt : ¬ numDigits n ≤ k := by
    intro hc
    have := lt_pow_numDigits n
    have : n < 10 ^ k := lt_of_lt_of_le this (Nat.pow_le_pow_right (by omega) hc)
    omega
  omega

theorem numDigits_mul_pow10 (n j : Nat) (hn : 1 ≤ n) :
    numDigits (n * 10 ^ j) = numDigits n + j := by
  have h1 : 10 ^ (numDigits n - 1) ≤ n := pow_numDigits_le n hn
  have h2 : n < 10 ^ numDigits n := lt_pow_numDigits n
  have hpos := numDigits_pos n
  have hb1 : 10 ^ (numDigits n - 1 + j) ≤ n * 10 ^ j := by
    rw [pow_add]
    exact Nat.mul_le_mul_right _ h1
  have hb2 : n * 10 ^ j < 10 ^ (numDigits n + j) := by
    rw [pow_add]
    exact Nat.mul_lt_mul_of_lt_of_le h2 (le_refl _) (Nat.pos_pow_of_pos _ (by omega))
  have := numDigits_eq_of_bounds (n * 10 ^ j) (numDigits n - 1 + j) hb1 (by
    have : numDigits n - 1 + j + 1 = numDigits n + j := by omega
    rw [this]; exact hb2)
  omega

theorem numDigits_pow10 (j : Nat) : numDigits (10 ^ j) = j + 1 := by
  have h := numDigits_mul_pow10 1 j (by omega)
  have h1 : numDigits 1 = 1 := by rw [numDigits_eq]; simp
  rw [one_mul, h1] at h
  omega

theorem numDigits_mono (a b : Nat) (h : a ≤ b) : numDigits a ≤ numDigits b := by
  have h2 : a < 10 ^ numDigits b := lt_of_le_of_lt h (lt_pow_numDigits b)
  exact numDigits_le_of_lt a (numDigits b) (numDigits_pos b) h2

/-! ### Codec lemmas -/

theorem halfEvenDiv_exact (n M : Nat) (hM : 0 < M) (h : M ∣ n) :
    halfEvenDiv n M = n / M := by
  obtain ⟨c, rfl⟩ := h
  have hr : M * c % M = 0 := Nat.mul_mod_right M c
  simp only [halfEvenDiv, hr]
  rw [if_neg (by omega), if_neg (by omega)]

theorem decFix_id (d : PyDec) (h : numDigits d.m.natAbs ≤ prec) : decFix d = d := by
  simp [decFix, h]

theorem ratTrunc_intCast (z : Int) : ratTrunc (z : ℚ) = z := by
  unfold ratTrunc
  by_cases h : (0 : ℚ) ≤ (z : ℚ)
  · simp [h, Int.floor_intCast]
  · simp [h, Int.ceil_intCast]

theorem floor_natCast_div (a b : Nat) (hb : 0 < b) :
    ⌊(a : ℚ) / (b : ℚ)⌋ = ((a / b : Nat) : Int) := by
  have hbq : (0 : ℚ) < (b : ℚ) := by exact_mod_cast hb
  rw [Int.floor_eq_iff]
  constructor
  · rw [le_div_iff₀ hbq]
    have h1 : (a / b) * b ≤ a := Nat.div_mul_le_self a b
    exact_mod_cast h1
  · rw [div_lt_iff₀ hbq]
    have h2 : a < (a / b + 1) * b := by
      have := Nat.div_add_mod a b
      have := Nat.mod_lt a hb
      nlinarith
    push_cast
    exact_mod_cast h2

theorem tdivInt_nonneg_eq (a : Int) (b : Nat) (ha : 0 ≤ a) :
    tdivInt a b = ((a.toNat / b : Nat) : Int) := by
  simp [tdivInt, ha]

/-- `int()` truncation agrees with rational truncation toward zero. -/
theorem decTruncToInt_eq_ratTrunc (d : PyDec) : decTruncToInt d = ratTrunc d.val := by
  obtain ⟨m, e⟩ := d
  unfold decTruncToInt PyDec.val
  by_cases he : 0 ≤ e
  · have hev : (10 : ℚ) ^ e = ((10 : ℚ) ^ e.toNat) := by
      rw [← zpow_natCast]
      congr 1
      omega
    simp only [if_pos he, hev]
    have : (m : ℚ) * (10 : ℚ) ^ e.toNat = ((m * (10 : Int) ^ e.toNat : Int) : ℚ) := by
      push_cast; ring
    rw [this, ratTrunc_intCast]
  · have hk : (0 : Int) < -e := by omega
    set k := (-e).toNat with hkdef
    have hkk : (k : Int) = -e := Int.toNat_of_nonneg (by omega)
    have hval : (m : ℚ) * (10 : ℚ) ^ e = (m : ℚ) / ((10 : ℚ) ^ k) := by
      have : e = -(k : Int) := by omega
      rw [this, zpow_neg, div_eq_mul_inv, zpow_natCast]
    have hbpos : (0 : ℚ) < (10 : ℚ) ^ k := by positivity
    have hbne : ((10 : Nat) ^ k : ℚ) = (10 : ℚ) ^ k := by push_cast; ring
    simp only [if_neg he]
    by_cases hm : 0 ≤ m
    · have hq0 : (0 : ℚ) ≤ (m : ℚ) / ((10 : ℚ) ^ k) := by
        apply div_nonneg _ (le_of_lt hbpos)
        exact_mod_cast hm
      rw [hval]
      unfold ratTrunc
      rw [if_pos hq0, tdivInt_nonneg_eq m _ hm]
      have hfl := floor_natCast_div m.toNat (10 ^ k) (Nat.pos_pow_of_pos _ (by omega))
      have hmn : ((m.toNat : Nat) : ℚ) = (m : ℚ) := by
        exact_mod_cast Int.toNat_of_nonneg hm
      rw [hmn, Nat.cast_pow, Nat.cast_ofNat] at hfl
      exact hfl.symm
    · push_neg at hm
      have hq0 : (m : ℚ) / ((10 : ℚ) ^ k) < 0 := by
        apply div_neg_of_neg_of_pos _ hbpos
        exact_mod_cast hm
      rw [hval]
      unfold ratTrunc
      rw [if_neg (by exact not_le.mpr hq0)]
      have htd : tdivInt m (10 ^ k) = -(((-m).toNat / 10 ^ k : Nat) : Int) := by
        simp [tdivInt, not_le.mpr hm]
      rw [htd]
      have hceil : ⌈(m : ℚ) / ((10 : ℚ) ^ k)⌉ = -⌊((-m : Int) : ℚ) / ((10 : ℚ) ^ k)⌋ := by
        rw [← Int.ceil_neg]
        congr 1
        push_cast
        ring
      rw [hceil]
      congr 1
      have hfl := floor_natCast_div (-m).toNat (10 ^ k) (Nat.pos_pow_of_pos _ (by omega))
      have hmn : (((-m).toNat : Nat) : ℚ) = ((-m : Int) : ℚ) := by
        exact_mod_cast Int.toNat_of_nonneg (by omega : (0 : Int) ≤ -m)
      rw [hmn, Nat.cast_pow, Nat.cast_ofNat] at hfl
      exact hfl.symm

/-- Multiplying a coefficient of at most `prec` digits by a power of ten and
then applying `_fix` only shifts zeros into the exponent: the value denoted is
unchanged. -/
theorem decFix_mul_pow_val (x : Int) (j : Nat) (e : Int) (hx : numDigits x.natAbs ≤ prec) :
    PyDec.val (decFix ⟨x * (10 : Int) ^ j, e⟩) = (x : ℚ) * (10 : ℚ) ^ j * (10 : ℚ) ^ e := by
  by_cases hx0 : x = 0
  · subst hx0
    rw [show ((0 : Int) * (10 : Int) ^ j) = 0 from by ring]
    rw [decFix_id ⟨0, e⟩ (by
      show numDigits (0 : Int).natAbs ≤ prec
      have : numDigits 0 = 1 := by rw [numDigits_eq]; simp
      simp only [Int.natAbs_zero, this, prec]
      omega)]
    simp [PyDec.val]
  · have hn1 : 1 ≤ x.natAbs := Int.natAbs_pos.mpr hx0
    have hna : (x * (10 : Int) ^ j).natAbs = x.natAbs * 10 ^ j := by
      rw [Int.natAbs_mul, Int.natAbs_pow]
      rfl
    have hdig2 : numDigits (x.natAbs * 10 ^ j) = numDigits x.natAbs + j :=
      numDigits_mul_pow10 _ _ hn1
    by_cases hbig : numDigits (x * (10 : Int) ^ j).natAbs ≤ prec
    · rw [decFix_id _ hbig]
      unfold PyDec.val
      push_cast
      ring
  

    · push_neg at hbig
      rw [hna, hdig2] at hbig
      have hk1 : 1 ≤ numDigits x.natAbs + j - prec := by omega
      have hkj : numDigits x.natAbs + j - prec ≤ j := by omega
      have hdvd : (10 : Nat) ^ (numDigits x.natAbs + j - prec) ∣ x.natAbs * 10 ^ j :=
        Dvd.dvd.mul_left (pow_dvd_pow 10 hkj) _
      have hq : halfEvenDiv (x.natAbs * 10 ^ j) (10 ^ (numDigits x.natAbs + j - prec)) =
          x.natAbs * 10 ^ (j - (numDigits x.natAbs + j - prec)) := by
        rw [halfEvenDiv_exact _ _ (Nat.pos_pow_of_pos _ (by omega)) hdvd]
        rw [show (10 : Nat) ^ j =
              10 ^ (j - (numDigits x.natAbs + j - prec)) * 10 ^ (numDigits x.natAbs + j - prec)
            from by rw [← pow_add]; congr 1; omega]
        rw [← mul_assoc, Nat.mul_div_cancel _ (Nat.pos_pow_of_pos _ (by omega))]
      have hqdig : numDigits (x.natAbs * 10 ^ (j - (numDigits x.natAbs + j - prec))) = prec := by
        rw [numDigits_mul_pow10 _ _ hn1]; omega
      have hfix : decFix ⟨x * (10 : Int) ^ j, e⟩ =
          decFixRound (x * (10 : Int) ^ j) e (numDigits x.natAbs + j - prec) := by
        unfold decFix
        rw [if_neg (by simp only [hna, hdig2]; omega)]
        simp only [hna, hdig2]
      rw [hfix]
      unfold decFixRound
      rw [hna, hq, hqdig]
      rw [if_neg (by omega)]
      have hsgn : (if x * (10 : Int) ^ j < 0 then
            -(((x.natAbs * 10 ^ (j - (numDigits x.natAbs + j - prec)) : Nat)) : Int)
          else (((x.natAbs * 10 ^ (j - (numDigits x.natAbs + j - prec)) : Nat)) : Int)) =
          x * (10 : Int) ^ (j - (numDigits x.natAbs + j - prec)) := by
        by_cases hneg : x < 0
        · rw [if_pos (by
            have h10 : (0 : Int) < (10 : Int) ^ j := by positivity
            exact mul_neg_of_neg_of_pos hneg h10)]
          push_cast
          rw [abs_of_neg hneg]
          ring
        · rw [if_neg (by
            push_neg at hneg
            have h10 : (0 : Int) ≤ (10 : Int) ^ j := by positivity
            have := mul_nonneg hneg h10
            omega)]
          push_cast
          rw [abs_of_nonneg (by omega : (0 : Int) ≤ x)]
      unfold PyDec.val
      simp only [hsgn]
      push_cast
      rw [zpow_add₀ (by norm_num : (10 : ℚ) ≠ 0), zpow_natCast]
      have hexp : (10 : ℚ) ^ (j - (numDigits x.natAbs + j - prec)) *
          (10 : ℚ) ^ (numDigits x.natAbs + j - prec) = (10 : ℚ) ^ j := by
        rw [← pow_add]
        congr 1
        omega
      rw [show (x : ℚ) * (10 : ℚ) ^ (j - (numDigits x.natAbs + j - prec)) *
            ((10 : ℚ) ^ e * (10 : ℚ) ^ (numDigits x.natAbs + j - prec)) =
          (x : ℚ) * ((10 : ℚ) ^ (j - (numDigits x.natAbs + j - prec)) *
            (10 : ℚ) ^ (numDigits x.natAbs + j - prec)) * (10 : ℚ) ^ e from by ring, hexp]

/-- Characterization of the zero-stripping loop: it divides out `t` factors of
ten (each division exact), adds `t` to the exponent, and stops only at the
fuel bound or when the loop condition fails. -/
theorem stripLoop_spec : ∀ (f c : Nat) (e : Int), ∃ t : Nat,
    stripLoop f c e = (c / 10 ^ t, e + t) ∧ (10 : Nat) ^ t ∣ c ∧
      (t = f ∨ ¬(e + (t : Int) < 0 ∧ (c / 10 ^ t) % 10 = 0)) := by
  intro f
  induction f with
  | zero =>
    intro c e
    refine ⟨0, ?_, ?_, Or.inl rfl⟩
    · simp [stripLoop]
    · simp
  | succ f ih =>
    intro c e
    by_cases h : e < 0 ∧ c % 10 = 0
    · obtain ⟨t, h1, h2, h3⟩ := ih (c / 10) (e + 1)
      have h10 : 10 ∣ c := Nat.dvd_of_mod_eq_zero h.2
      obtain ⟨c2, rfl⟩ := h10
      have hc2 : 10 * c2 / 10 = c2 := Nat.mul_div_cancel_left _ (by omega)
      rw [hc2] at h1 h2 h3
      have hdiv : c2 / 10 ^ t = 10 * c2 / 10 ^ (t + 1) := by
        rw [pow_succ, show (10 : Nat) ^ t * 10 = 10 * 10 ^ t from by ring]
        rw [Nat.mul_div_mul_left _ _ (by omega : 0 < 10)]
      refine ⟨t + 1, ?_, ?_, ?_⟩
      · simp only [stripLoop, if_pos h]
        rw [hc2, h1, hdiv]
        have hcast : e + 1 + (t : Int) = e + ((t + 1 : Nat) : Int) := by push_cast; ring
        rw [hcast]
      · rw [pow_succ, show (10 : Nat) ^ t * 10 = 10 * 10 ^ t from by ring]
        exact mul_dvd_mul_left 10 h2
      · rcases h3 with h3 | h3
        · left; omega
        · right
          intro hcon
          apply h3
          constructor
          · have := hcon.1
            push_cast at this ⊢
            omega
          · rw [hdiv]
            exact hcon.2
    · refine ⟨0, ?_, ?_, Or.inr (by simpa using h)⟩
      · simp [stripLoop, if_neg h]
      · simp

theorem pyDivShift_pow10 (n j : Nat) (hdn : numDigits n ≤ prec) :
    pyDivShift n (10 ^ j) = ((j + 30 - numDigits n : Nat) : Int) := by
  unfold pyDivShift
  rw [numDigits_pow10]
  have hp : prec = 28 := rfl
  omega

theorem pyDivRaw_pow10 (n j : Nat) (hdn : numDigits n ≤ prec) :
    pyDivRaw n (10 ^ j) = (n * 10 ^ (30 - numDigits n), 0) := by
  have hs := pyDivShift_pow10 n j hdn
  have hp : prec = 28 := rfl
  unfold pyDivRaw
  rw [hs, if_pos (by positivity)]
  have htn : (((j + 30 - numDigits n : Nat) : Int)).toNat = j + 30 - numDigits n :=
    Int.toNat_natCast _
  rw [htn]
  have hsplit : (10 : Nat) ^ (j + 30 - numDigits n) = 10 ^ (30 - numDigits n) * 10 ^ j := by
    rw [← pow_add]
    congr 1
    omega
  rw [hsplit, ← mul_assoc]
  have hdiv : n * 10 ^ (30 - numDigits n) * 10 ^ j / 10 ^ j = n * 10 ^ (30 - numDigits n) :=
    Nat.mul_div_cancel _ (Nat.pos_pow_of_pos _ (by omega))
  have hmod : n * 10 ^ (30 - numDigits n) * 10 ^ j % 10 ^ j = 0 := Nat.mul_mod_left _ _
  rw [hdiv, hmod]

/-- For an exact division of an at-most-`prec`-digit magnitude by a power of
ten, the adjust step lands on `n / 10 ^ u` at exponent `u - j` for some exact
power `u`. -/
theorem pyDivAdjust_pow10 (n j : Nat) (_hn : 1 ≤ n) (hdn : numDigits n ≤ prec) :
    ∃ u : Nat, (10 : Nat) ^ u ∣ n ∧
      pyDivAdjust n (10 ^ j) = (n / 10 ^ u, (u : Int) - (j : Int)) := by
  have hp : prec = 28 := rfl
  have hs := pyDivShift_pow10 n j hdn
  have hraw := pyDivRaw_pow10 n j hdn
  unfold pyDivAdjust
  rw [hraw, hs]
  simp only [ne_eq, not_true_eq_false, if_neg (by simp : ¬ (0 : Nat) ≠ 0)]
  have htn : (((j + 30 - numDigits n : Nat) : Int)).toNat = j + 30 - numDigits n :=
    Int.toNat_natCast _
  rw [htn]
  obtain ⟨t, h1, h2, h3⟩ :=
    stripLoop_spec (j + 30 - numDigits n) (n * 10 ^ (30 - numDigits n))
      (-((j + 30 - numDigits n : Nat) : Int))
  have htlow : 30 - numDigits n ≤ t := by
    by_contra hc
    push_neg at hc
    rcases h3 with h3 | h3
    · omega
    · apply h3
      constructor
      · omega
      · have hd : (10 : Nat) ^ (t + 1) ∣ 10 ^ (30 - numDigits n) := pow_dvd_pow 10 (by omega)
        obtain ⟨w2, hw2⟩ := hd
        have hquot : n * 10 ^ (30 - numDigits n) / 10 ^ t = 10 * (n * w2) := by
          rw [hw2, pow_succ, show (10 : Nat) ^ t * 10 * w2 = 10 ^ t * (10 * w2) from by ring,
            ← mul_assoc, mul_comm n (10 ^ t), mul_assoc,
            Nat.mul_div_cancel_left _ (Nat.pos_pow_of_pos _ (by omega))]
          ring
        rw [hquot, Nat.mul_mod_right]
  refine ⟨t - (30 - numDigits n), ?_, ?_⟩
  · -- 10 ^ u divides n
    have hsplit : (10 : Nat) ^ t = 10 ^ (t - (30 - numDigits n)) * 10 ^ (30 - numDigits n) := by
      rw [← pow_add]
      congr 1
      omega
    rw [hsplit] at h2
    have hpos : (0 : Nat) < 10 ^ (30 - numDigits n) := Nat.pos_pow_of_pos _ (by omega)
    exact (Nat.mul_dvd_mul_iff_right hpos).mp h2
  · rw [h1]
    have hcq : n * 10 ^ (30 - numDigits n) / 10 ^ t = n / 10 ^ (t - (30 - numDigits n)) := by
      have hsplit : (10 : Nat) ^ t = 10 ^ (30 - numDigits n) * 10 ^ (t - (30 - numDigits n)) := by
        rw [← pow_add]
        congr 1
        omega
      rw [hsplit, mul_comm n (10 ^ (30 - numDigits n)), ← Nat.div_div_eq_div_mul,
        Nat.mul_div_cancel_left _ (Nat.pos_pow_of_pos _ (by omega))]
    rw [hcq]
    have hexp : -((j + 30 - numDigits n : Nat) : Int) + (t : Int) =
        ((t - (30 - numDigits n) : Nat) : Int) - (j : Int) := by
      omega
    rw [hexp]
    simp

/-- `Decimal(x) / 10 ^ j` is exact (as a value) whenever the numerator has at
most `prec` digits — in particular throughout `fget` for stored numerators. -/
theorem pyDivInt_pow10_val (x : Int) (j : Nat) (hx : numDigits x.natAbs ≤ prec) :
    PyDec.val (pyDivInt x ((10 : Int) ^ j)) = (x : ℚ) / (10 : ℚ) ^ j := by
  by_cases hx0 : x = 0
  · subst hx0
    simp [pyDivInt, PyDec.val]
  · have hn1 : 1 ≤ x.natAbs := Int.natAbs_pos.mpr hx0
    have hb : ((10 : Int) ^ j).natAbs = 10 ^ j := by
      rw [Int.natAbs_pow]
      rfl
    obtain ⟨u, hdvd, hadj⟩ := pyDivAdjust_pow10 x.natAbs j hn1 hx
    obtain ⟨w, hw⟩ := hdvd
    have hupos : (0 : Nat) < 10 ^ u := Nat.pos_pow_of_pos _ (by omega)
    have hq : x.natAbs / 10 ^ u = w := by
      rw [hw, Nat.mul_div_cancel_left _ hupos]
    have hwle : w ≤ x.natAbs := by
      rw [hw]
      exact Nat.le_mul_of_pos_left _ hupos
    have hdig : numDigits w ≤ prec := le_trans (numDigits_mono _ _ hwle) hx
    have hfix : decFix ⟨(w : Int), (u : Int) - (j : Int)⟩ = ⟨(w : Int), (u : Int) - (j : Int)⟩ :=
      decFix_id _ (by
        show numDigits (w : Int).natAbs ≤ prec
        rw [Int.natAbs_ofNat]
        exact hdig)
    have hkey : ((w : ℚ)) * (10 : ℚ) ^ ((u : Int) - (j : Int)) = ((x.natAbs : ℚ)) / (10 : ℚ) ^ j := by
      rw [zpow_sub₀ (by norm_num : (10 : ℚ) ≠ 0), zpow_natCast, zpow_natCast]
      rw [show ((x.natAbs : ℚ)) = (10 : ℚ) ^ u * (w : ℚ) from by
        rw [hw]
        push_cast
        ring]
      field_simp
      ring
    have hbneg : decide ((10 : Int) ^ j < 0) = false := by
      simp only [decide_eq_false_iff_not, not_lt]
      positivity
    unfold pyDivInt
    rw [if_neg (by omega), hb, hadj]
    simp only [hq, hbneg, Bool.xor_false]
    by_cases hneg : x < 0
    · rw [if_pos (by simp [hneg])]
      rw [hfix]
      unfold PyDec.val
      simp only []
      push_cast
      rw [show (-(w : ℚ)) * (10 : ℚ) ^ ((u : Int) - (j : Int)) =
          -((w : ℚ) * (10 : ℚ) ^ ((u : Int) - (j : Int))) from by ring, hkey]
      have habs : ((x.natAbs : ℚ)) = -(x : ℚ) := by
        rw [Int.cast_natAbs, abs_of_neg hneg]
        push_cast
        ring
      rw [habs]
      ring
    · rw [if_neg (by simp [hneg])]
      rw [hfix]
      unfold PyDec.val
      simp only []
      push_cast
      rw [hkey]
      have habs : ((x.natAbs : ℚ)) = (x : ℚ) := by
        rw [Int.cast_natAbs, abs_of_nonneg (not_lt.mp hneg)]
      rw [habs]

theorem ancestorNames_of_chain (book : Book) :
    ∀ (og : Option Nat) (accs : List AccountR), ParentChain book og accs →
      ∀ fuel : Nat, accs.length ≤ fuel → ancestorNames book fuel og = accs.map (fun a => a.name) := by
  intro og accs h
  induction h with
  | stop =>
    intro fuel _
    cases fuel <;> simp [ancestorNames]
  | dangling g hg =>
    intro fuel _
    cases fuel with
    | zero => simp [ancestorNames]
    | succ f => simp [ancestorNames, hg]
  | cons g a rest hg hrest ih =>
    intro fuel hlen
    cases fuel with
    | zero => simp at hlen
    | succ f =>
      simp only [ancestorNames, hg, List.map_cons]
      rw [ih f (by simpa using hlen)]

section CallableListLemmas

variable {α V : Type} [DecidableEq V]

theorem objMatches_eq_all (getA : α → String → V) (x : α) (crit : List (String × V)) :
    objMatches getA x crit = crit.all (fun kv => decide (getA x kv.1 = kv.2)) := by
  induction crit with
  | nil => rfl
  | cons kv rest ih =>
    simp only [objMatches, List.all_cons]
    by_cases h : getA x kv.1 = kv.2
    · simp [h, ih]
    · simp [h]

theorem clCallAux_spec (getA : α → String → V) (fb : Option (List (String × V) → α))
    (orig : List α) (crit : List (String × V)) :
    ∀ l : List α, clCallAux getA fb orig crit l =
      match l.find? (fun x => crit.all (fun kv => decide (getA x kv.1 = kv.2))) with
      | some x => .ok x
      | none =>
        match fb with
        | some f => .ok (f crit)
        | none => .error (crit, orig) := by
  intro l
  induction l with
  | nil => rfl
  | cons x xs ih =>
    simp only [clCallAux, objMatches_eq_all]
    by_cases h : crit.all (fun kv => decide (getA x kv.1 = kv.2)) = true
    · have hfind : List.find? (fun y => crit.all (fun kv => decide (getA y kv.1 = kv.2)))
          (x :: xs) = some x := List.find?_cons_of_pos xs h
      rw [if_pos h, hfind]
    · have hfind : List.find? (fun y => crit.all (fun kv => decide (getA y kv.1 = kv.2)))
          (x :: xs) = List.find? (fun y => crit.all (fun kv => decide (getA y kv.1 = kv.2))) xs :=
        List.find?_cons_of_neg xs (by simpa using h)
      rw [if_neg h, ih, hfind]

end CallableListLemmas

/-! ### Claim theorems -/

/-- C1, counterexample: on an account with `non_std_scu == 0` (and a set
`commodity_scu`), assigning a commodity updates `commodity_scu` to the new
fraction but SETS the override flag to 1 — the `commodity_scu` setter is
invoked with a concrete value — contradicting the claim that the flag stays
cleared. -/
theorem claim_C1_counterexample :
    (AccountR.mk 1 ("A") none none none (some 100) (some 0)).nonStdScu = some 0 ∧
    (setCommodity (AccountR.mk 1 ("A") none none none (some 100) (some 0))
      (some (Commodity.mk 1000))).commodityScu = some 1000 ∧
    ¬ (setCommodity (AccountR.mk 1 ("A") none none none (some 100) (some 0))
      (some (Commodity.mk 1000))).nonStdScu = some 0 := by
  decide

/-- C1, amended: for every account and non-null commodity, if `commodity_scu`
is unset or `non_std_scu == 0`, the assignment stores the commodity and sets
`commodity_scu` to its fraction with the override flag SET to 1 (not cleared);
if `non_std_scu == 1` (and hence, in every state the setters produce,
`commodity_scu` is set), both scu fields are untouched. -/
theorem claim_C1_amended (a : AccountR) (c : Commodity) :
    ((a.commodityScu = none ∨ a.nonStdScu = some 0) →
      (setCommodity a (some c)).commodityScu = some c.fraction ∧
      (setCommodity a (some c)).nonStdScu = some 1 ∧
      (setCommodity a (some c)).commodity = some c) ∧
    (a.nonStdScu = some 1 → a.commodityScu ≠ none →
      (setCommodity a (some c)).commodityScu = a.commodityScu ∧
      (setCommodity a (some c)).nonStdScu = a.nonStdScu ∧
      (setCommodity a (some c)).commodity = some c) := by
  constructor
  · intro h
    simp [setCommodity, if_pos h, set_commodity_scu]
  · intro h1 h2
    have hcond : ¬ (a.commodityScu = none ∨ a.nonStdScu = some 0) := by
      rintro (hh | hh)
      · exact h2 hh
      · rw [h1] at hh
        simp at hh
    simp [setCommodity, if_neg hcond]

/-- C1, witness for the amended claim at concrete inputs: a fresh account
(nothing set) takes the fraction and flag 1; an account with an explicit scu
override keeps it. -/
theorem claim_C1_witness :
    ((setCommodity (AccountR.mk 1 ("B") none none none none none)
        (some (Commodity.mk 7))).commodityScu = some 7 ∧
      (setCommodity (AccountR.mk 1 ("B") none none none none none)
        (some (Commodity.mk 7))).nonStdScu = some 1 ∧
      (setCommodity (AccountR.mk 1 ("B") none none none none none)
        (some (Commodity.mk 7))).commodity = some (Commodity.mk 7)) ∧
    ((setCommodity (AccountR.mk 2 ("C") none none none (some 5) (some 1))
        (some (Commodity.mk 7))).commodityScu = some 5 ∧
      (setCommodity (AccountR.mk 2 ("C") none none none (some 5) (some 1))
        (some (Commodity.mk 7))).nonStdScu = some 1 ∧
      (setCommodity (AccountR.mk 2 ("C") none none none (some 5) (some 1))
        (some (Commodity.mk 7))).commodity = some (Commodity.mk 7)) :=
  ⟨(claim_C1_amended (AccountR.mk 1 ("B") none none none none none)
      (Commodity.mk 7)).1 (Or.inl rfl),
    (claim_C1_amended (AccountR.mk 2 ("C") none none none (some 5) (some 1))
      (Commodity.mk 7)).2 rfl (by decide)⟩

/-- C4: over the taxonomy (with a possibly-null parent type), the code's
compatibility test agrees exactly with the spec's three clauses: ROOT parent
with any non-ROOT child, ROOT child with null parent, or both types in one of
the four families. -/
theorem claim_C4 (tp : Option String) (tc : String)
    (hp : tp ∈ ((none : Option String) :: ACCOUNT_TYPES.map some))
    (hc : tc ∈ ACCOUNT_TYPES) :
    _is_parent_child_types_consistent tp tc = compatibleSpec tp tc := by
  have hall : (((none : Option String) :: ACCOUNT_TYPES.map some).all fun p =>
      ACCOUNT_TYPES.all fun c =>
        _is_parent_child_types_consistent p c == compatibleSpec p c) = true := by decide
  have h1 := List.all_eq_true.mp hall tp hp
  have h2 := List.all_eq_true.mp h1 tc hc
  exact eq_of_beq h2

/-- C4, witness: a ROOT parent with a CASH child (both functions agree, and
the value is `true`). -/
theorem claim_C4_witness :
    ((some ("ROOT") : Option String) ∈ ((none : Option String) :: ACCOUNT_TYPES.map some)) ∧
    (("CASH") ∈ ACCOUNT_TYPES) ∧
    _is_parent_child_types_consistent (some ("ROOT")) ("CASH") =
      compatibleSpec (some ("ROOT")) ("CASH") ∧
    _is_parent_child_types_consistent (some ("ROOT")) ("CASH") = true :=
  ⟨by decide, by decide, claim_C4 (some ("ROOT")) ("CASH") (by decide) (by decide), by decide⟩

/-- C7: a floating-point input of any magnitude makes `fset` raise the
`TypeError` (carrying the float) and leaves both storage fields exactly as
they were. -/
theorem claim_C7 (r : GncRecord) (x : ℚ) :
    fset r (.floatI x) = (r, some (.typeErrFloat x)) := rfl

/-- C8: the keyed find returns the first element (in list order) matching all
criteria; with no match it returns the fallback applied to the same criteria
when one is configured, and otherwise the error carrying the criteria and the
searched collection. -/
theorem claim_C8 {α V : Type} [DecidableEq V] (getA : α → String → V)
    (fb : Option (List (String × V) → α)) (l : List α) (crit : List (String × V)) :
    clCall getA fb l crit =
      match l.find? (fun x => crit.all (fun kv => decide (getA x kv.1 = kv.2))) with
      | some x => .ok x
      | none =>
        match fb with
        | some f => .ok (f crit)
        | none => .error (crit, l) :=
  clCallAux_spec getA fb l crit l

/-- C10: an account with a non-empty name and no parent gets `fullname` equal
to the empty string (the sole collected segment is the outermost one and is
dropped), not its own name. -/
theorem claim_C10 (book : Book) (fuel : Nat) (g : Nat) (a : AccountR)
    (hg : lookupAcc book g = some a) (hname : a.name ≠ "") (hpar : a.parentGuid = none)
    (hfuel : 1 ≤ fuel) :
    fullname book fuel g = some ("") ∧ some ("") ≠ some a.name := by
  obtain ⟨f, rfl⟩ : ∃ f, fuel = f + 1 := ⟨fuel - 1, by omega⟩
  constructor
  · simp only [fullname, hg]
    rw [if_neg hname]
    have hanc : ancestorNames book (f + 1) (some g) =
        a.name :: ancestorNames book f a.parentGuid := by
      simp [ancestorNames, hg]
    have hrest : ancestorNames book f none = [] := by cases f <;> rfl
    rw [hanc, hpar, hrest]
    rfl
  · simpa using Ne.symm hname

/-- C10, witness: a single parentless account named by a nonempty string. -/
theorem claim_C10_witness :
    fullname [AccountR.mk 0 ("Solo") none none none none none] 1 0 = some ("") ∧
    some ("") ≠ some (AccountR.mk 0 ("Solo") none none none none none).name :=
  claim_C10 [AccountR.mk 0 ("Solo") none none none none none] 1 0
    (AccountR.mk 0 ("Solo") none none none none none) (by decide) (by decide) rfl (by decide)

/-- C9: for an account with a non-empty name whose parent chain is the
recorded list of rows, `fullname` is the colon-join of the collected names
with the outermost segment dropped, reversed; and `fullname` is null when the
account's own name is unset. -/
theorem claim_C9 :
    (∀ (book : Book) (g : Nat) (a : AccountR) (rest : List AccountR) (fuel : Nat),
      ParentChain book (some g) (a :: rest) → a.name ≠ ("") →
      (a :: rest).length ≤ fuel →
      fullname book fuel g = some (String.intercalate (":")
        ((((a :: rest).map (fun x => x.name)).dropLast).reverse))) ∧
    (∀ (book : Book) (fuel : Nat) (g : Nat) (a : AccountR),
      lookupAcc book g = some a → a.name = ("") → fullname book fuel g = none) := by
  constructor
  · intro book g a rest fuel hchain hname hlen
    have hg : lookupAcc book g = some a := by
      cases hchain with
      | cons _ _ _ h _ => exact h
    simp only [fullname, hg]
    rw [if_neg hname,
      ancestorNames_of_chain book (some g) (a :: rest) hchain fuel hlen]
  · intro book fuel g a hg hname
    simp only [fullname, hg]
    rw [if_pos hname]

/-- C9, witness: the chain Root → Assets → Bank → Checking gives the Checking
account the fullname Assets:Bank:Checking. -/
theorem claim_C9_witness :
    fullname
      [AccountR.mk 0 ("Root") (some ("ROOT")) none none none none,
       AccountR.mk 1 ("Assets") (some ("ASSET")) (some 0) none none none,
       AccountR.mk 2 ("Bank") (some ("BANK")) (some 1) none none none,
       AccountR.mk 3 ("Checking") (some ("BANK")) (some 2) none none none] 4 3 =
      some ("Assets:Bank:Checking") := by
  have hchain : ParentChain
      [AccountR.mk 0 ("Root") (some ("ROOT")) none none none none,
       AccountR.mk 1 ("Assets") (some ("ASSET")) (some 0) none none none,
       AccountR.mk 2 ("Bank") (some ("BANK")) (some 1) none none none,
       AccountR.mk 3 ("Checking") (some ("BANK")) (some 2) none none none]
      (some 3)
      [AccountR.mk 3 ("Checking") (some ("BANK")) (some 2) none none none,
       AccountR.mk 2 ("Bank") (some ("BANK")) (some 1) none none none,
       AccountR.mk 1 ("Assets") (some ("ASSET")) (some 0) none none none,
       AccountR.mk 0 ("Root") (some ("ROOT")) none none none none] := by
    refine ParentChain.cons _ _ _ (by decide) ?_
    refine ParentChain.cons _ _ _ (by decide) ?_
    refine ParentChain.cons _ _ _ (by decide) ?_
    refine ParentChain.cons _ _ _ (by decide) ?_
    exact ParentChain.stop
  have h := claim_C9.1 _ 3
    (AccountR.mk 3 ("Checking") (some ("BANK")) (some 2) none none none)
    [AccountR.mk 2 ("Bank") (some ("BANK")) (some 1) none none none,
     AccountR.mk 1 ("Assets") (some ("ASSET")) (some 0) none none none,
     AccountR.mk 0 ("Root") (some ("ROOT")) none none none none] 4 hchain
    (by decide) (by decide)
  exact h.trans (by decide)

/-- C6: writing a decimal fails with the out-of-range error — storing nothing
— exactly when the computed numerator or denominator reaches `2 ^ 63 - 1` in
absolute value; with both at most `2 ^ 63 - 2` the write succeeds and stores
them. -/
theorem claim_C6 (r : GncRecord) (d : PyDec) :
    ((2 ^ 63 - 1 ≤ (computedNum r d).natAbs ∨ 2 ^ 63 - 1 ≤ (computedDenom r d).natAbs) →
      fset r (.decI d) = (r, some (.outOfRange d))) ∧
    ((computedNum r d).natAbs ≤ 2 ^ 63 - 2 → (computedDenom r d).natAbs ≤ 2 ^ 63 - 2 →
      fset r (.decI d) =
        ({ r with num := some (computedNum r d), denom := some (computedDenom r d) }, none)) := by
  have hM : MAX_NUMBER = (9223372036854775807 : Int) := by norm_num [MAX_NUMBER]
  have h9 : (2 : Nat) ^ 63 - 1 = 9223372036854775807 := by norm_num
  have h8 : (2 : Nat) ^ 63 - 2 = 9223372036854775806 := by norm_num
  constructor
  · intro h
    rw [h9] at h
    show fsetDec r d = _
    simp only [fsetDec]
    rw [if_neg (by simp only [hM]; omega)]
  · intro h1 h2
    rw [h8] at h1 h2
    show fsetDec r d = _
    simp only [fsetDec]
    rw [if_pos (by simp only [hM]; omega)]

/-- C6, witness: the integer `2 ^ 63 - 1` (numerator at the bound) is
rejected with the record untouched, while `2 ^ 63 - 2` is stored. -/
theorem claim_C6_witness :
    fset (GncRecord.mk none none none) (.decI (PyDec.mk (2 ^ 63 - 1) 0)) =
      (GncRecord.mk none none none, some (.outOfRange (PyDec.mk (2 ^ 63 - 1) 0))) ∧
    fset (GncRecord.mk none none none) (.decI (PyDec.mk (2 ^ 63 - 2) 0)) =
      (GncRecord.mk (some (2 ^ 63 - 2)) (some 1) none, none) :=
  ⟨(claim_C6 (GncRecord.mk none none none) (PyDec.mk (2 ^ 63 - 1) 0)).1 (by decide),
   ((claim_C6 (GncRecord.mk none none none) (PyDec.mk (2 ^ 63 - 2) 0)).2
     (by decide) (by decide)).trans (by decide)⟩

/-- C2, counterexample: with a denominator basis of 100 configured, storing
the decimal 1.007 keeps numerator 100 — `int(d * denom)` truncates toward
zero — whereas `round(value * denominator)` is 101. -/
theorem claim_C2_counterexample :
    (fset (GncRecord.mk none none (some 100)) (.decI (PyDec.mk 1007 (-3)))).1.num = some 100 ∧
    ratRoundHalfEven (PyDec.val (PyDec.mk 1007 (-3)) * ((100 : Int) : ℚ)) = 101 ∧
    ¬ ((100 : Int) = 101) := by
  refine ⟨by decide, ?_, by decide⟩
  have hval : PyDec.val (PyDec.mk 1007 (-3)) * ((100 : Int) : ℚ) = 1007 / 10 := by
    unfold PyDec.val
    norm_num
  rw [hval]
  have hfl : ⌊(1007 / 10 : ℚ)⌋ = 100 := by norm_num [Int.floor_eq_iff]
  unfold ratRoundHalfEven
  rw [hfl]
  norm_num

/-- C2, amended: for every decimal input and configured denominator (basis or
derived) whose product with the coefficient stays within the 28-digit decimal
context, the setter stores `numerator = value * denominator` truncated toward
zero, computed exactly with no floating-point intermediate; this agrees with
rounding whenever the product is integral (always the case with the derived
denominator), but not in general with a configured basis. -/
theorem claim_C2_amended (r : GncRecord) (d : PyDec)
    (hfit : numDigits (d.m * computedDenom r d).natAbs ≤ prec) :
    computedNum r d = ratTrunc (PyDec.val d * ((computedDenom r d : Int) : ℚ)) ∧
    ((-MAX_NUMBER < computedNum r d ∧ computedNum r d < MAX_NUMBER) →
      (-MAX_NUMBER < computedDenom r d ∧ computedDenom r d < MAX_NUMBER) →
      fset r (.decI d) =
        ({ r with
            num := some (ratTrunc (PyDec.val d * ((computedDenom r d : Int) : ℚ)))
            denom := some (computedDenom r d) }, none)) := by
  have hnum : computedNum r d = ratTrunc (PyDec.val d * ((computedDenom r d : Int) : ℚ)) := by
    unfold computedNum decMul
    rw [show (PyDec.mk (computedDenom r d) 0).m = computedDenom r d from rfl,
      show (PyDec.mk (computedDenom r d) 0).e = (0 : Int) from rfl, add_zero]
    rw [decFix_id _ hfit, decTruncToInt_eq_ratTrunc]
    congr 1
    unfold PyDec.val
    push_cast
    ring
  refine ⟨hnum, ?_⟩
  intro hb1 hb2
  show fsetDec r d = _
  simp only [fsetDec]
  rw [if_pos ⟨hb1, hb2⟩, hnum]

/-- C2, witness for the amended claim at the counterexample's input: basis
100, decimal 1.007. -/
theorem claim_C2_witness :
    computedNum (GncRecord.mk none none (some 100)) (PyDec.mk 1007 (-3)) =
      ratTrunc (PyDec.val (PyDec.mk 1007 (-3)) *
        ((computedDenom (GncRecord.mk none none (some 100)) (PyDec.mk 1007 (-3)) : Int) : ℚ)) ∧
    fset (GncRecord.mk none none (some 100)) (.decI (PyDec.mk 1007 (-3))) =
      (GncRecord.mk
        (some (ratTrunc (PyDec.val (PyDec.mk 1007 (-3)) *
          ((computedDenom (GncRecord.mk none none (some 100)) (PyDec.mk 1007 (-3)) : Int) : ℚ))))
        (some (computedDenom (GncRecord.mk none none (some 100)) (PyDec.mk 1007 (-3))))
        (some 100), none) :=
  ⟨(claim_C2_amended (GncRecord.mk none none (some 100)) (PyDec.mk 1007 (-3)) (by decide)).1,
   (claim_C2_amended (GncRecord.mk none none (some 100)) (PyDec.mk 1007 (-3)) (by decide)).2
     (by decide) (by decide)⟩

/-- C5: with no denominator basis, any decimal `m * 10 ^ e` with `e ≤ 0` whose
numerator and denominator stay strictly inside the representable bound is
stored losslessly: the set succeeds and a get returns a decimal denoting
exactly the same value. -/
theorem claim_C5 (mI e : Int) (r : GncRecord) (hb : r.denomBasis = none) (he : e ≤ 0)
    (hm : mI.natAbs < 2 ^ 63 - 1) (hd : (10 : Int) ^ (-e).toNat < 2 ^ 63 - 1) :
    (fset r (.decI (PyDec.mk mI e))).2 = none ∧
    Option.map PyDec.val (fget (fset r (.decI (PyDec.mk mI e))).1) =
      some (PyDec.val (PyDec.mk mI e)) := by
  have hke : (((-e).toNat : Int)) = -e := Int.toNat_of_nonneg (by omega)
  have hdm : numDigits mI.natAbs ≤ prec := by
    have h19 : mI.natAbs < 10 ^ 19 := by
      have : (2 : Nat) ^ 63 - 1 ≤ 10 ^ 19 := by norm_num
      omega
    have := numDigits_le_of_lt mI.natAbs 19 (by omega) h19
    have hp : prec = 28 := rfl
    omega
  have hdenom : computedDenom r (PyDec.mk mI e) = (10 : Int) ^ (-e).toNat := by
    unfold computedDenom
    rw [hb]
    have hmax : max (-(PyDec.mk mI e).e) 0 = -e := by
      rw [show (PyDec.mk mI e).e = e from rfl]
      exact max_eq_left (by omega)
    rw [hmax]
  have hnum : computedNum r (PyDec.mk mI e) = mI := by
    unfold computedNum decMul
    rw [hdenom]
    rw [show (PyDec.mk ((10 : Int) ^ (-e).toNat) 0).m = (10 : Int) ^ (-e).toNat from rfl,
      show (PyDec.mk ((10 : Int) ^ (-e).toNat) 0).e = (0 : Int) from rfl,
      show (PyDec.mk mI e).m = mI from rfl, show (PyDec.mk mI e).e = e from rfl, add_zero]
    rw [decTruncToInt_eq_ratTrunc, decFix_mul_pow_val mI ((-e).toNat) e hdm]
    have hcancel : (10 : ℚ) ^ ((-e).toNat) * (10 : ℚ) ^ e = 1 := by
      rw [← zpow_natCast (10 : ℚ) ((-e).toNat), ← zpow_add₀ (by norm_num : (10 : ℚ) ≠ 0)]
      rw [show (((-e).toNat : Int)) + e = 0 from by omega]
      exact zpow_zero 10
    rw [show (mI : ℚ) * (10 : ℚ) ^ ((-e).toNat) * (10 : ℚ) ^ e =
        (mI : ℚ) * ((10 : ℚ) ^ ((-e).toNat) * (10 : ℚ) ^ e) from by ring, hcancel, mul_one]
    exact ratTrunc_intCast mI
  have hM : MAX_NUMBER = (9223372036854775807 : Int) := by norm_num [MAX_NUMBER]
  have hpow_pos : (0 : Int) < (10 : Int) ^ (-e).toNat := by positivity
  have hstore : fset r (.decI (PyDec.mk mI e)) =
      ({ r with num := some mI, denom := some ((10 : Int) ^ (-e).toNat) }, none) := by
    show fsetDec r (PyDec.mk mI e) = _
    simp only [fsetDec]
    rw [hnum, hdenom]
    rw [if_pos (by
      have h63n : (2 : Nat) ^ 63 - 1 = 9223372036854775807 := by norm_num
      rw [h63n] at hm
      have h63i : (2 : Int) ^ 63 - 1 = 9223372036854775807 := by norm_num
      rw [h63i] at hd
      refine ⟨⟨?_, ?_⟩, ?_, ?_⟩ <;> simp only [hM] <;> omega)]
  rw [hstore]
  refine ⟨rfl, ?_⟩
  have hfg : fget { r with num := some mI, denom := some ((10 : Int) ^ (-e).toNat) } =
      some (pyDivInt mI ((10 : Int) ^ (-e).toNat)) := rfl
  rw [hfg]
  rw [show Option.map PyDec.val (some (pyDivInt mI ((10 : Int) ^ (-e).toNat))) =
      some (PyDec.val (pyDivInt mI ((10 : Int) ^ (-e).toNat))) from rfl]
  congr 1
  rw [pyDivInt_pow10_val mI ((-e).toNat) hdm]
  unfold PyDec.val
  rw [show (PyDec.mk mI e).m = mI from rfl, show (PyDec.mk mI e).e = e from rfl]
  have hz : (10 : ℚ) ^ e = ((10 : ℚ) ^ ((-e).toNat))⁻¹ := by
    rw [← zpow_natCast (10 : ℚ) ((-e).toNat), ← zpow_neg]
    congr 1
    omega
  rw [hz, div_eq_mul_inv]

/-- C5, witness: 123.45 stored on a fresh record round-trips exactly. -/
theorem claim_C5_witness :
    (fset (GncRecord.mk none none none) (.decI (PyDec.mk 12345 (-2)))).2 = none ∧
    Option.map PyDec.val
        (fget (fset (GncRecord.mk none none none) (.decI (PyDec.mk 12345 (-2)))).1) =
      some (PyDec.val (PyDec.mk 12345 (-2))) :=
  claim_C5 12345 (-2) (GncRecord.mk none none none) rfl (by decide) (by decide) (by decide)

theorem set_commodity_scu_guid (a : AccountR) (v : Option Int) :
    (set_commodity_scu a v).guid = a.guid := by
  cases v <;> rfl

theorem set_commodity_scu_name (a : AccountR) (v : Option Int) :
    (set_commodity_scu a v).name = a.name := by
  cases v <;> rfl

theorem set_commodity_scu_parentGuid (a : AccountR) (v : Option Int) :
    (set_commodity_scu a v).parentGuid = a.parentGuid := by
  cases v <;> rfl

theorem setCommodity_guid (a : AccountR) (v : Option Commodity) :
    (setCommodity a v).guid = a.guid := by
  cases v with
  | none => rfl
  | some c =>
    simp only [setCommodity]
    split <;> rfl

theorem setCommodity_name (a : AccountR) (v : Option Commodity) :
    (setCommodity a v).name = a.name := by
  cases v with
  | none => rfl
  | some c =>
    simp only [setCommodity]
    split <;> rfl

theorem mkAccount_guid (g : Nat) (nm ty : String) (c : Option Commodity)
    (s : Option Int) (pg : Option Nat) : (mkAccount g nm ty c s pg).guid = g := by
  unfold mkAccount
  rw [set_commodity_scu_guid]
  show (setCommodity _ c).guid = g
  rw [setCommodity_guid]

theorem mkAccount_name (g : Nat) (nm ty : String) (c : Option Commodity)
    (s : Option Int) (pg : Option Nat) : (mkAccount g nm ty c s pg).name = nm := by
  unfold mkAccount
  rw [set_commodity_scu_name]
  show (setCommodity _ c).name = nm
  rw [setCommodity_name]

theorem mkAccount_parentGuid (g : Nat) (nm ty : String) (c : Option Commodity)
    (s : Option Int) (pg : Option Nat) : (mkAccount g nm ty c s pg).parentGuid = pg := by
  unfold mkAccount
  rw [set_commodity_scu_parentGuid]

theorem lookupAcc_append_left (book l2 : Book) (g : Nat) (a : AccountR)
    (h : lookupAcc book g = some a) : lookupAcc (book ++ l2) g = some a := by
  unfold lookupAcc at h ⊢
  rw [List.find?_append, h]
  rfl

theorem childrenOf_append (book l2 : Book) (pg : Nat) :
    childrenOf (book ++ l2) pg = childrenOf book pg ++ childrenOf l2 pg := by
  unfold childrenOf
  exact List.filter_append _ _

/-- C3: with the account's parent resolved, (i) assigning a name some other
child of that parent already carries fails with the duplicate-name error and
leaves the book unchanged; (ii) assigning a name no other sibling carries
succeeds and stores it — in particular a name used only under a different
parent; (iii) creating a second sibling with an already-used name (valid and
parent-compatible type) fails the same way with the book unchanged. -/
theorem claim_C3 (book : Book) (g : Nat) (a pacc : AccountR) (nm : String)
    (hg : lookupAcc book g = some a)
    (hp : a.parentGuid.bind (lookupAcc book) = some pacc) :
    (((childrenOf book pacc.guid).any (fun acc => acc.name == nm && acc.guid != g)) = true →
      setName book g nm = (book, some .dupName)) ∧
    (((childrenOf book pacc.guid).any (fun acc => acc.name == nm && acc.guid != g)) = false →
      setName book g nm =
        (book.map (fun x => if x.guid = g then { x with name := nm } else x), none)) ∧
    (∀ (g2 : Nat) (ty : String) (cmdty : Option Commodity) (scuArg : Option Int),
      ACCOUNT_TYPES.contains ty = true →
      _is_parent_child_types_consistent pacc.atype ty = true →
      lookupAcc book pacc.guid = some pacc →
      ((childrenOf book pacc.guid).any (fun acc => acc.name == nm && acc.guid != g2)) = true →
      addAccount book g2 nm ty cmdty scuArg (some pacc.guid) = (book, some .dupName)) := by
  have hag : a.guid = g := by
    have h := List.find?_some hg
    simpa using h
  refine ⟨?_, ?_, ?_⟩
  · intro hdup
    unfold setName
    rw [hg]
    have hval : validate_account_name book a nm = false := by
      unfold validate_account_name
      rw [hp, hag]
      simp [hdup]
    simp [hval]
  · intro hnodup
    unfold setName
    rw [hg]
    have hval : validate_account_name book a nm = true := by
      unfold validate_account_name
      rw [hp, hag]
      simp [hnodup]
    simp [hval]
  · intro g2 ty cmdty scuArg hty hcons hpl hdup
    have hvnew : validate_account_name
        (book ++ [mkAccount g2 nm ty cmdty scuArg (some pacc.guid)])
        (mkAccount g2 nm ty cmdty scuArg (some pacc.guid)) nm = false := by
      unfold validate_account_name
      rw [mkAccount_parentGuid]
      rw [show (some pacc.guid).bind
            (lookupAcc (book ++ [mkAccount g2 nm ty cmdty scuArg (some pacc.guid)])) =
          lookupAcc (book ++ [mkAccount g2 nm ty cmdty scuArg (some pacc.guid)]) pacc.guid
          from rfl]
      rw [lookupAcc_append_left book _ _ _ hpl]
      rw [show (match some pacc with
            | none => true
            | some p => !((childrenOf (book ++ [mkAccount g2 nm ty cmdty scuArg (some pacc.guid)])
                p.guid).any (fun acc => acc.name == nm &&
                  acc.guid != (mkAccount g2 nm ty cmdty scuArg (some pacc.guid)).guid))) =
          !((childrenOf (book ++ [mkAccount g2 nm ty cmdty scuArg (some pacc.guid)])
              pacc.guid).any (fun acc => acc.name == nm &&
                acc.guid != (mkAccount g2 nm ty cmdty scuArg (some pacc.guid)).guid)) from rfl]
      rw [childrenOf_append, List.any_append]
      simp only [mkAccount_guid]
      rw [hdup]
      rfl
    unfold addAccount
    rw [hty]
    simp only [Bool.not_true, Bool.false_eq_true, if_false]
    rw [show (some pacc.guid).bind (lookupAcc book) = lookupAcc book pacc.guid from rfl]
    simp only [hpl, hcons, hvnew, Bool.not_true, Bool.false_eq_true, if_false]

/-- C3, witness: renaming Y to X (already used by its sibling) fails and
leaves the book unchanged; renaming Y to Z (used only under the other parent
Q) succeeds; creating a new child of P named X fails. -/
theorem claim_C3_witness :
    setName c3book 2 ("X") = (c3book, some .dupName) ∧
    setName c3book 2 ("Z") =
      (c3book.map (fun x => if x.guid = 2 then { x with name := ("Z") } else x), none) ∧
    addAccount c3book 5 ("X") ("ASSET") none none (some 0) = (c3book, some .dupName) := by
  have h1 := claim_C3 c3book 2 (AccountR.mk 2 ("Y") (some ("ASSET")) (some 0) none none none)
    (AccountR.mk 0 ("P") (some ("ROOT")) none none none none) ("X") (by decide) (by decide)
  have h2 := claim_C3 c3book 2 (AccountR.mk 2 ("Y") (some ("ASSET")) (some 0) none none none)
    (AccountR.mk 0 ("P") (some ("ROOT")) none none none none) ("Z") (by decide) (by decide)
  exact ⟨h1.1 (by decide), h2.2.1 (by decide),
    h1.2.2 5 ("ASSET") none none (by decide) (by decide) (by decide) (by decide)⟩
